import Mathlib

/-!
# Verification of the wagering package

Shallow embedding of the Go package `wagering` (odds/probability value model,
Kelly staking, market width, streaming averages, and the six margin-removal
normalizers) over exact real arithmetic, together with theorems settling the
frozen claims about its specification.

Go `float64` values are modelled as real numbers (`ℝ`); the one claim that is
specifically about IEEE-754 infinities is handled on a dedicated extended-real
model of the same source function.
-/

namespace Wagering

noncomputable section

/-- Mirrors the Go struct `Odds`: both representations of a betting price,
fields `decimalOdds` and `americanOdds` (float64 modelled as `ℝ`). -/
structure Odds where
  decimalOdds : ℝ
  americanOdds : ℝ

/-- Go `NewOddsFromAmerican`: if the american odds are positive the decimal
odds are `american/100 + 1`, otherwise `1 - 100/american`; the american value
is stored unchanged. -/
def NewOddsFromAmerican (americanOdds : ℝ) : Odds :=
  if americanOdds > 0 then
    ⟨americanOdds / 100 + 1, americanOdds⟩
  else
    ⟨1 - 100 / americanOdds, americanOdds⟩

/-- Go `NewOddsFromDecimal`: if the decimal odds are `≥ 2` the american odds
are `(decimal-1)*100`, otherwise `-100/(decimal-1)`; the decimal value is
stored unchanged. -/
def NewOddsFromDecimal (decimalOdds : ℝ) : Odds :=
  if decimalOdds ≥ 2 then
    ⟨decimalOdds, (decimalOdds - 1) * 100⟩
  else
    ⟨decimalOdds, -100 / (decimalOdds - 1)⟩

/-- Go method `American`: returns the stored american odds. -/
def Odds.American (odds : Odds) : ℝ := odds.americanOdds

/-- Go method `Decimal`: returns the stored decimal odds. -/
def Odds.Decimal (odds : Odds) : ℝ := odds.decimalOdds

/-- Mirrors the Go struct `Probability` with fields `decimal` and `percent`. -/
structure Probability where
  decimal : ℝ
  percent : ℝ

/-- Go `NewProbabilityFromPercent`: stores `percent/100` and `percent`. -/
def NewProbabilityFromPercent (percent : ℝ) : Probability :=
  ⟨percent / 100, percent⟩

/-- Go `NewProbabilityFromDecimal`: stores `decimal` and `decimal*100`. -/
def NewProbabilityFromDecimal (decimal : ℝ) : Probability :=
  ⟨decimal, decimal * 100⟩

/-- Go method `ImpliedProb`: the implied probability `1/decimalOdds`. -/
def Odds.ImpliedProb (odds : Odds) : Probability :=
  NewProbabilityFromDecimal (1 / odds.decimalOdds)

/-- Go helper `probs`: the implied probabilities of the given odds. -/
def probs (odds : List Odds) : List Probability :=
  odds.map Odds.ImpliedProb

/-- Go helper `probSum`: the sum of the implied-probability decimals. -/
def probSum (odds : List Odds) : ℝ :=
  ((probs odds).map Probability.decimal).sum

/-- Go helper `transSum`: the sum of a probability transform over the odds. -/
def transSum (prob : Odds → ℝ) (odds : List Odds) : ℝ :=
  (odds.map prob).sum

/-- Go helper `transOdds`: builds odds `1/prob(o)` for each input odds. -/
def transOdds (prob : Odds → ℝ) (odds : List Odds) : List Odds :=
  odds.map fun o => NewOddsFromDecimal (1 / prob o)

/-- Go helper `margin`: the overround `probSum - 1`. -/
def margin (odds : List Odds) : ℝ :=
  probSum odds - 1

/-- Go method `KellyFraction`: `max(mult * ((b*p - (1-p))/b), 0)` with
`b = decimalOdds - 1` (the local `profitMult`). -/
def Odds.KellyFraction (odds : Odds) (prob : Probability) (mult : ℝ) : ℝ :=
  max (mult * (((odds.decimalOdds - 1) * prob.decimal - (1 - prob.decimal)) /
    (odds.decimalOdds - 1))) 0

/-- Go method `KellyStake`: `KellyFraction * bankroll`. -/
def Odds.KellyStake (odds : Odds) (prob : Probability) (mult bankroll : ℝ) : ℝ :=
  odds.KellyFraction prob mult * bankroll

/-- Go `MarketWidth`: case split on the signs of the american odds. -/
def MarketWidth (odds1 odds2 : Odds) : ℝ :=
  if odds1.americanOdds < 0 ∧ odds2.americanOdds < 0 then
    |odds1.americanOdds| + |odds2.americanOdds| - 200
  else if odds1.americanOdds > 0 ∧ odds2.americanOdds > 0 then
    -(odds1.americanOdds + odds2.americanOdds - 200)
  else
    |odds1.americanOdds + odds2.americanOdds|

/-- Mirrors the Go struct `AverageOdds`: running `sum` of decimal odds and
running `count` (a Go `int`, modelled as `ℤ`). -/
structure AverageOdds where
  sum : ℝ
  count : ℤ

/-- Go `NewAverageOdds`: the empty accumulator. -/
def NewAverageOdds : AverageOdds := ⟨0, 0⟩

/-- Go method `Accumulate`: folds the odds into the accumulator, adding each
`decimalOdds` to `sum` and incrementing `count`. -/
def AverageOdds.Accumulate (ao : AverageOdds) (odds : List Odds) : AverageOdds :=
  odds.foldl (fun acc o => ⟨acc.sum + o.decimalOdds, acc.count + 1⟩) ao

/-- Go method `Average`: `NewOddsFromDecimal (sum / count)`. -/
def AverageOdds.Average (ao : AverageOdds) : Odds :=
  NewOddsFromDecimal (ao.sum / (ao.count : ℝ))

/-- Go method `AverageWithout`: `NewOddsFromDecimal ((sum - odds.decimalOdds*count)
/ (ao.count - count))`. -/
def AverageOdds.AverageWithout (ao : AverageOdds) (odds : Odds) (count : ℤ) : Odds :=
  NewOddsFromDecimal ((ao.sum - odds.decimalOdds * (count : ℝ)) /
    (((ao.count - count : ℤ) : ℝ)))

/-- State-transformer view of the pointer-receiver method `AverageWithout`:
the Go body only reads the receiver's fields, so the post-state is the
receiver unchanged. -/
def AverageOdds.AverageWithoutSt (ao : AverageOdds) (odds : Odds) (count : ℤ) :
    Odds × AverageOdds :=
  (ao.AverageWithout odds count, ao)

/-- Go `EqualMarginOdds`: scales each decimal odds by the implied-probability
sum of the market. -/
def EqualMarginOdds (odds : List Odds) : List Odds :=
  odds.map fun o => NewOddsFromDecimal (o.decimalOdds * probSum odds)

/-- Go `AdditiveOdds`: removes an equal probability share `margin/n` from
every outcome. -/
def AdditiveOdds (odds : List Odds) : List Odds :=
  odds.map fun o =>
    NewOddsFromDecimal (1 / (1 / o.decimalOdds - margin odds / (odds.length : ℝ)))

/-- Go `MPTOdds`: the margin-proportional-to-odds adjustment
`(n*d)/(n - m*d)`. -/
def MPTOdds (odds : List Odds) : List Odds :=
  odds.map fun o =>
    NewOddsFromDecimal (((odds.length : ℝ) * o.decimalOdds) /
      ((odds.length : ℝ) - margin odds * o.decimalOdds))

/-- The probability transform of Go `ShinOdds`'s local closure `prob`:
`(sqrt((c^2 + 4(1-c)p^2)/overround) - c) / (2(1-c))` with `p` the implied
probability. -/
def shinProb (overround c : ℝ) (odds : Odds) : ℝ :=
  (Real.sqrt ((c ^ 2 + 4 * (1 - c) * odds.ImpliedProb.decimal ^ 2) / overround) - c) /
    (2 * (1 - c))

/-- The probability transform of Go `OddsRatioOdds`'s local closure `prob`:
`p / (c + (1-c)/decimalOdds)`. -/
def oddsRatioProb (c : ℝ) (odds : Odds) : ℝ :=
  odds.ImpliedProb.decimal / (c + (1 - c) / odds.decimalOdds)

/-- The probability transform of Go `LogarithmicOdds`'s local closure `prob`:
`(1/decimalOdds)^c` (Go `math.Pow`, modelled by `Real.rpow`). -/
def logProb (c : ℝ) (odds : Odds) : ℝ :=
  (1 / odds.decimalOdds) ^ c

/-- The successive-substitution loop shared verbatim by the three Go solvers
(`ShinOdds`, `OddsRatioOdds`, `LogarithmicOdds`): state is the pair of the
current parameter `c` and the iteration counter `i`; while
`|transSum(prob c) - 1| > 1e-12` and fuel (the remaining iteration budget out
of `maxIterations = 1000`) is left, it updates `c += delta` and `i++`. -/
def solveLoop (prob : ℝ → Odds → ℝ) (odds : List Odds) : ℕ → ℝ × ℕ → ℝ × ℕ
  | 0, s => s
  | fuel + 1, (c, i) =>
    if 1e-12 < |transSum (prob c) odds - 1| then
      solveLoop prob odds fuel (c + (transSum (prob c) odds - 1), i + 1)
    else (c, i)

/-- Go `ShinOdds`: `overround` is fixed from the quoted odds before the loop,
`c` starts at `0.0`, and the returned odds are `1/prob(o)` at the final `c`. -/
def ShinOdds (odds : List Odds) : List Odds :=
  transOdds (shinProb (probSum odds)
    (solveLoop (shinProb (probSum odds)) odds 1000 (0, 0)).1) odds

/-- Go `OddsRatioOdds`: `c` starts at `1.0`; returns `1/prob(o)` at the final
`c`. -/
def OddsRatioOdds (odds : List Odds) : List Odds :=
  transOdds (oddsRatioProb (solveLoop oddsRatioProb odds 1000 (1, 0)).1) odds

/-- Go `LogarithmicOdds`: `c` starts at `1.0`; returns `1/prob(o)` at the
final `c`. -/
def LogarithmicOdds (odds : List Odds) : List Odds :=
  transOdds (logProb (solveLoop logProb odds 1000 (1, 0)).1) odds

/-- One iteration of the successive-substitution update exactly as the Go
loops perform it: if the residual `transSum(prob c) - 1` still exceeds the
`1e-12` tolerance in absolute value, replace `c` by `c + residual`, else keep
`c` (the loop guard has stopped the iteration). -/
def nextC (prob : ℝ → Odds → ℝ) (odds : List Odds) (c : ℝ) : ℝ :=
  if 1e-12 < |transSum (prob c) odds - 1| then
    c + (transSum (prob c) odds - 1)
  else c

/-- Modelled from the spec: the claimed update of claim C2, which replaces
`c` by `c + (1 - Σ f(o, c))`. -/
def specNextC (prob : ℝ → Odds → ℝ) (odds : List Odds) (c : ℝ) : ℝ :=
  c + (1 - transSum (prob c) odds)

end

/-! ## Basic lemmas about the constructors -/

@[simp] lemma newOddsFromDecimal_decimalOdds (d : ℝ) :
    (NewOddsFromDecimal d).decimalOdds = d := by
  unfold NewOddsFromDecimal; split <;> rfl

@[simp] lemma newOddsFromAmerican_americanOdds (a : ℝ) :
    (NewOddsFromAmerican a).americanOdds = a := by
  unfold NewOddsFromAmerican; split <;> rfl

@[simp] lemma impliedProb_decimal (o : Odds) :
    o.ImpliedProb.decimal = 1 / o.decimalOdds := rfl

lemma probSum_eq (odds : List Odds) :
    probSum odds = (odds.map fun o => 1 / o.decimalOdds).sum := by
  unfold probSum probs
  rw [List.map_map]
  rfl

/-! ## Sum lemmas for the normalizers (claim C1) -/

lemma sum_map_inv_mul (l : List Odds) (S : ℝ) :
    (l.map fun o => 1 / (o.decimalOdds * S)).sum =
      (l.map fun o => 1 / o.decimalOdds).sum / S := by
  induction l with
  | nil => simp
  | cons x xs ih =>
    rw [List.map_cons, List.sum_cons, List.map_cons, List.sum_cons, ih,
      div_mul_eq_div_div, div_add_div_same]

lemma sum_map_sub_const (l : List Odds) (a : ℝ) :
    (l.map fun o => 1 / o.decimalOdds - a).sum =
      (l.map fun o => 1 / o.decimalOdds).sum - (l.length : ℝ) * a := by
  induction l with
  | nil => simp
  | cons x xs ih =>
    simp only [List.map_cons, List.sum_cons, ih, List.length_cons]
    push_cast
    ring

/-- Pushing the implied-probability accessor through a list of constructed
odds: the implied probability of `NewOddsFromDecimal (g o)` is `1 / g o`. -/
lemma sum_implied_map (g : Odds → ℝ) (odds : List Odds) :
    ((odds.map fun o => NewOddsFromDecimal (g o)).map fun o => o.ImpliedProb.decimal).sum =
      (odds.map fun o => 1 / g o).sum := by
  induction odds with
  | nil => rfl
  | cons x xs ih =>
    simp only [List.map_cons, List.sum_cons]
    rw [ih, impliedProb_decimal, newOddsFromDecimal_decimalOdds]

/-- Double reciprocals cancel termwise under a sum (valid without any
nonvanishing assumption in the real field). -/
lemma sum_one_div_one_div (f : Odds → ℝ) (odds : List Odds) :
    (odds.map fun o => 1 / (1 / f o)).sum = (odds.map f).sum := by
  induction odds with
  | nil => rfl
  | cons x xs ih =>
    simp only [List.map_cons, List.sum_cons, one_div_one_div, ih]

lemma probSum_pos (odds : List Odds) (hne : odds ≠ [])
    (hd : ∀ o ∈ odds, 1 < o.decimalOdds) : 0 < probSum odds := by
  rw [probSum_eq]
  apply List.sum_pos
  · intro x hx
    obtain ⟨o, ho, rfl⟩ := List.mem_map.mp hx
    have h1 : (0:ℝ) < o.decimalOdds := lt_trans zero_lt_one (hd o ho)
    positivity
  · simpa using hne

/-- The implied probabilities of a `transOdds` output recover the transformed
probabilities themselves, so their sum is `transSum`. -/
lemma implied_sum_transOdds (prob : Odds → ℝ) (odds : List Odds) :
    ((transOdds prob odds).map fun o => o.ImpliedProb.decimal).sum =
      transSum prob odds := by
  unfold transOdds transSum
  rw [sum_implied_map, sum_one_div_one_div]

/-- The outputs of `EqualMarginOdds` have implied probabilities summing to
exactly 1. -/
lemma eqMargin_sum (odds : List Odds) (hne : odds ≠ [])
    (hd : ∀ o ∈ odds, 1 < o.decimalOdds) :
    ((EqualMarginOdds odds).map fun o => o.ImpliedProb.decimal).sum = 1 := by
  have hS : 0 < probSum odds := probSum_pos odds hne hd
  unfold EqualMarginOdds
  rw [sum_implied_map, sum_map_inv_mul, ← probSum_eq, div_self (ne_of_gt hS)]

/-- The common core of the Additive and MPT sums: subtracting the per-outcome
margin share from every implied probability gives a total of exactly 1. -/
lemma sum_one_div_sub_margin (odds : List Odds) (hne : odds ≠ []) :
    (odds.map fun o => 1 / o.decimalOdds - margin odds / (odds.length : ℝ)).sum = 1 := by
  have hn : ((odds.length : ℝ)) ≠ 0 := by
    have := List.length_pos.mpr hne
    positivity
  rw [sum_map_sub_const, ← probSum_eq]
  have hcancel : (odds.length : ℝ) * (margin odds / (odds.length : ℝ)) = margin odds := by
    rw [mul_comm, div_mul_cancel₀ _ hn]
  rw [hcancel, margin]
  ring

/-- The outputs of `AdditiveOdds` have implied probabilities summing to
exactly 1. -/
lemma additive_sum (odds : List Odds) (hne : odds ≠ []) :
    ((AdditiveOdds odds).map fun o => o.ImpliedProb.decimal).sum = 1 := by
  unfold AdditiveOdds
  rw [sum_implied_map, sum_one_div_one_div]
  exact sum_one_div_sub_margin odds hne

/-- The outputs of `MPTOdds` have implied probabilities summing to exactly 1:
pointwise on the members, `1/((n*d)/(n - m*d)) = 1/d - m/n`. -/
lemma mpt_sum (odds : List Odds) (hne : odds ≠ [])
    (hd : ∀ o ∈ odds, 1 < o.decimalOdds) :
    ((MPTOdds odds).map fun o => o.ImpliedProb.decimal).sum = 1 := by
  have hn : ((odds.length : ℝ)) ≠ 0 := by
    have := List.length_pos.mpr hne
    positivity
  unfold MPTOdds
  rw [sum_implied_map]
  have hmap : (odds.map fun o : Odds =>
      1 / (((odds.length : ℝ) * o.decimalOdds) /
        ((odds.length : ℝ) - margin odds * o.decimalOdds))).sum =
      (odds.map fun o : Odds =>
        1 / o.decimalOdds - margin odds / (odds.length : ℝ)).sum := by
    apply congrArg List.sum
    apply List.map_congr_left
    intro o ho
    have hd0 : o.decimalOdds ≠ 0 := ne_of_gt (lt_trans zero_lt_one (hd o ho))
    rw [one_div_div]
    field_simp
    ring
  rw [hmap]
  exact sum_one_div_sub_margin odds hne

/-! ## Claim C2: the successive-substitution recurrence of the three solvers -/

/-- The parameter component of the solver loop is the 1000-fold iterate of the
single-step update `nextC` (which freezes once the residual is within
tolerance, exactly like the loop guard). -/
lemma solveLoop_fst (prob : ℝ → Odds → ℝ) (odds : List Odds) :
    ∀ (fuel : ℕ) (c : ℝ) (i : ℕ),
      (solveLoop prob odds fuel (c, i)).1 = (nextC prob odds)^[fuel] c := by
  intro fuel
  induction fuel with
  | zero => intro c i; rfl
  | succ n ih =>
    intro c i
    by_cases h : 1e-12 < |transSum (prob c) odds - 1|
    · rw [solveLoop, if_pos h, ih, Function.iterate_succ_apply]
      congr 1
      rw [nextC, if_pos h]
    · have hfix : nextC prob odds c = c := by rw [nextC, if_neg h]
      rw [solveLoop, if_neg h, Function.iterate_succ_apply, hfix,
        Function.iterate_fixed hfix n]

/-- Claim C2 amended (corrected): each of the three iterative normalizers
computes its parameter `c` by successive substitution with the update
`c += (Σ f(o, c) - 1)` (the sign opposite to the one the claim states),
starting from `c = 0` for Shin and `c = 1` for OddsRatio/Logarithmic,
iterating at most 1000 times and freezing as soon as the residual
`|Σ f(o, c) - 1|` is within the `1e-12` tolerance; the returned true odds are
`1/f(o, c_final)` for each input odds. -/
theorem solver_recurrence (odds : List Odds) :
    ShinOdds odds = transOdds (shinProb (probSum odds)
      ((nextC (shinProb (probSum odds)) odds)^[1000] 0)) odds ∧
    OddsRatioOdds odds =
      transOdds (oddsRatioProb ((nextC oddsRatioProb odds)^[1000] 1)) odds ∧
    LogarithmicOdds odds =
      transOdds (logProb ((nextC logProb odds)^[1000] 1)) odds := by
  refine ⟨?_, ?_, ?_⟩
  · unfold ShinOdds; rw [solveLoop_fst]
  · unfold OddsRatioOdds; rw [solveLoop_fst]
  · unfold LogarithmicOdds; rw [solveLoop_fst]

/-- Counterexample to claim C2 (as stated): on the market of three outcomes at
decimal odds 2, the solver of `OddsRatioOdds` starts at `c = 1` with residual
`Σ f - 1 = 1/2` (above tolerance, so an iteration is performed) and its first
iteration replaces `c = 1` by `3/2`, whereas the update claimed by the spec,
`c + (1 - Σ f(o, c))`, would replace it by `1/2 ≠ 3/2`. -/
theorem solver_recurrence_counterexample :
    solveLoop oddsRatioProb
        [NewOddsFromDecimal 2, NewOddsFromDecimal 2, NewOddsFromDecimal 2] 1000 (1, 0) =
      solveLoop oddsRatioProb
        [NewOddsFromDecimal 2, NewOddsFromDecimal 2, NewOddsFromDecimal 2] 999 (3 / 2, 1) ∧
    specNextC oddsRatioProb
      [NewOddsFromDecimal 2, NewOddsFromDecimal 2, NewOddsFromDecimal 2] 1 = 1 / 2 ∧
    ((3 : ℝ) / 2) ≠ 1 / 2 := by
  have hs : transSum (oddsRatioProb 1)
      [NewOddsFromDecimal 2, NewOddsFromDecimal 2, NewOddsFromDecimal 2] = 3 / 2 := by
    unfold transSum oddsRatioProb
    simp
    norm_num
  refine ⟨?_, ?_, by norm_num⟩
  · rw [show (1000 : ℕ) = 999 + 1 from rfl, solveLoop, hs,
      if_pos (by rw [abs_of_pos (by norm_num : (0:ℝ) < 3 / 2 - 1)]; norm_num)]
    norm_num
  · rw [specNextC, hs]
    norm_num

/-! ## Claim C1: the shared contract of the six normalizers -/

/-- Claim C1 amended (corrected): for every non-empty input of odds, each with
decimal odds above 1, all six normalizers return a sequence of the input's
length, index-aligned 1:1 with it (the i-th output is the de-vigged version of
the i-th input). The output implied probabilities sum to exactly 1 for
`EqualMarginOdds`, `AdditiveOdds` and `MPTOdds`; for `ShinOdds`,
`OddsRatioOdds` and `LogarithmicOdds` they sum to the transform total at the
final solver parameter, which is within 1e-9 of 1 whenever the solver's final
residual met its 1e-12 tolerance (the unconditional 1e-9 bound of the original
claim fails when the iteration budget is exhausted; see the counterexample). -/
theorem normalizers_spec (odds : List Odds) (hne : odds ≠ [])
    (hd : ∀ o ∈ odds, 1 < o.decimalOdds) :
    ((EqualMarginOdds odds).length = odds.length ∧
     (AdditiveOdds odds).length = odds.length ∧
     (MPTOdds odds).length = odds.length ∧
     (ShinOdds odds).length = odds.length ∧
     (OddsRatioOdds odds).length = odds.length ∧
     (LogarithmicOdds odds).length = odds.length) ∧
    ((∀ i : ℕ, (EqualMarginOdds odds)[i]? =
        (odds[i]?).map fun o => NewOddsFromDecimal (o.decimalOdds * probSum odds)) ∧
     (∀ i : ℕ, (AdditiveOdds odds)[i]? =
        (odds[i]?).map fun o =>
          NewOddsFromDecimal (1 / (1 / o.decimalOdds - margin odds / (odds.length : ℝ)))) ∧
     (∀ i : ℕ, (MPTOdds odds)[i]? =
        (odds[i]?).map fun o =>
          NewOddsFromDecimal (((odds.length : ℝ) * o.decimalOdds) /
            ((odds.length : ℝ) - margin odds * o.decimalOdds))) ∧
     (∀ i : ℕ, (ShinOdds odds)[i]? =
        (odds[i]?).map fun o =>
          NewOddsFromDecimal (1 / shinProb (probSum odds)
            (solveLoop (shinProb (probSum odds)) odds 1000 (0, 0)).1 o)) ∧
     (∀ i : ℕ, (OddsRatioOdds odds)[i]? =
        (odds[i]?).map fun o =>
          NewOddsFromDecimal (1 / oddsRatioProb
            (solveLoop oddsRatioProb odds 1000 (1, 0)).1 o)) ∧
     (∀ i : ℕ, (LogarithmicOdds odds)[i]? =
        (odds[i]?).map fun o =>
          NewOddsFromDecimal (1 / logProb (solveLoop logProb odds 1000 (1, 0)).1 o))) ∧
    (((EqualMarginOdds odds).map fun o => o.ImpliedProb.decimal).sum = 1 ∧
     ((AdditiveOdds odds).map fun o => o.ImpliedProb.decimal).sum = 1 ∧
     ((MPTOdds odds).map fun o => o.ImpliedProb.decimal).sum = 1) ∧
    (((ShinOdds odds).map fun o => o.ImpliedProb.decimal).sum =
        transSum (shinProb (probSum odds)
          (solveLoop (shinProb (probSum odds)) odds 1000 (0, 0)).1) odds ∧
     ((OddsRatioOdds odds).map fun o => o.ImpliedProb.decimal).sum =
        transSum (oddsRatioProb (solveLoop oddsRatioProb odds 1000 (1, 0)).1) odds ∧
     ((LogarithmicOdds odds).map fun o => o.ImpliedProb.decimal).sum =
        transSum (logProb (solveLoop logProb odds 1000 (1, 0)).1) odds) ∧
    ((|transSum (shinProb (probSum odds)
          (solveLoop (shinProb (probSum odds)) odds 1000 (0, 0)).1) odds - 1| ≤ 1e-12 →
        |((ShinOdds odds).map fun o => o.ImpliedProb.decimal).sum - 1| ≤ 1e-9) ∧
     (|transSum (oddsRatioProb
          (solveLoop oddsRatioProb odds 1000 (1, 0)).1) odds - 1| ≤ 1e-12 →
        |((OddsRatioOdds odds).map fun o => o.ImpliedProb.decimal).sum - 1| ≤ 1e-9) ∧
     (|transSum (logProb (solveLoop logProb odds 1000 (1, 0)).1) odds - 1| ≤ 1e-12 →
        |((LogarithmicOdds odds).map fun o => o.ImpliedProb.decimal).sum - 1| ≤ 1e-9)) := by
  refine ⟨⟨?_, ?_, ?_, ?_, ?_, ?_⟩, ⟨?_, ?_, ?_, ?_, ?_, ?_⟩, ?_, ?_, ?_⟩
  · simp [EqualMarginOdds]
  · simp [AdditiveOdds]
  · simp [MPTOdds]
  · simp [ShinOdds, transOdds]
  · simp [OddsRatioOdds, transOdds]
  · simp [LogarithmicOdds, transOdds]
  · intro i; rw [EqualMarginOdds, List.getElem?_map]
  · intro i; rw [AdditiveOdds, List.getElem?_map]
  · intro i; rw [MPTOdds, List.getElem?_map]
  · intro i; rw [ShinOdds, transOdds, List.getElem?_map]
  · intro i; rw [OddsRatioOdds, transOdds, List.getElem?_map]
  · intro i; rw [LogarithmicOdds, transOdds, List.getElem?_map]
  · exact ⟨eqMargin_sum odds hne hd, additive_sum odds hne, mpt_sum odds hne hd⟩
  · exact ⟨implied_sum_transOdds _ _, implied_sum_transOdds _ _, implied_sum_transOdds _ _⟩
  · refine ⟨fun h => ?_, fun h => ?_, fun h => ?_⟩
    · rw [ShinOdds, implied_sum_transOdds]
      calc |transSum (shinProb (probSum odds)
              (solveLoop (shinProb (probSum odds)) odds 1000 (0, 0)).1) odds - 1|
          ≤ 1e-12 := h
        _ ≤ 1e-9 := by norm_num
    · rw [OddsRatioOdds, implied_sum_transOdds]
      calc |transSum (oddsRatioProb
              (solveLoop oddsRatioProb odds 1000 (1, 0)).1) odds - 1|
          ≤ 1e-12 := h
        _ ≤ 1e-9 := by norm_num
    · rw [LogarithmicOdds, implied_sum_transOdds]
      calc |transSum (logProb (solveLoop logProb odds 1000 (1, 0)).1) odds - 1|
          ≤ 1e-12 := h
        _ ≤ 1e-9 := by norm_num

/-- Witness for claim C1 (amended): the two-outcome market at decimal odds 2
satisfies the hypotheses, the EqualMargin output probabilities sum to exactly
1 and the Shin output has the input's length. -/
theorem normalizers_spec_witness :
    ([NewOddsFromDecimal 2, NewOddsFromDecimal 2] : List Odds) ≠ [] ∧
    (∀ o ∈ ([NewOddsFromDecimal 2, NewOddsFromDecimal 2] : List Odds),
      1 < o.decimalOdds) ∧
    ((EqualMarginOdds [NewOddsFromDecimal 2, NewOddsFromDecimal 2]).map
      fun o => o.ImpliedProb.decimal).sum = 1 ∧
    (ShinOdds [NewOddsFromDecimal 2, NewOddsFromDecimal 2]).length =
      ([NewOddsFromDecimal 2, NewOddsFromDecimal 2] : List Odds).length := by
  have hne : ([NewOddsFromDecimal 2, NewOddsFromDecimal 2] : List Odds) ≠ [] := by simp
  have hd : ∀ o ∈ ([NewOddsFromDecimal 2, NewOddsFromDecimal 2] : List Odds),
      1 < o.decimalOdds := by
    intro o ho
    simp only [List.mem_cons, List.not_mem_nil, or_false] at ho
    rcases ho with rfl | rfl <;>
      (rw [newOddsFromDecimal_decimalOdds]; norm_num)
  exact ⟨hne, hd, (normalizers_spec _ hne hd).2.2.1.1,
    (normalizers_spec _ hne hd).1.2.2.2.1⟩

/-! ## The slow market: a concrete input exhausting the iteration budget -/

/-- The concrete two-outcome market with decimal odds `1 + 1e-6` on both
sides. On it the odds-ratio solver's residual stays close to 1, so the
parameter creeps upward by less than 1 per iteration while the fixed point
sits near `10^6`: the 1000-iteration budget is provably exhausted. -/
noncomputable def slowMarket : List Odds :=
  [NewOddsFromDecimal (1 + 1e-6), NewOddsFromDecimal (1 + 1e-6)]

lemma slow_transSum (c : ℝ) :
    transSum (oddsRatioProb c) slowMarket = 2 / (1 + c * 1e-6) := by
  have hd : (1 + 1e-6 : ℝ) ≠ 0 := by norm_num
  have hterm : oddsRatioProb c (NewOddsFromDecimal (1 + 1e-6)) =
      1 / (1 + c * 1e-6) := by
    unfold oddsRatioProb
    rw [impliedProb_decimal, newOddsFromDecimal_decimalOdds, div_div]
    congr 1
    have h1 : (1 + 1e-6 : ℝ) * ((1 - c) / (1 + 1e-6)) = 1 - c := by
      rw [mul_comm, div_mul_cancel₀ _ hd]
    rw [mul_add, h1]
    ring
  unfold slowMarket transSum
  rw [List.map_cons, List.map_cons, List.map_nil, List.sum_cons, List.sum_cons,
    List.sum_nil, add_zero, hterm, div_add_div_same]
  norm_num

lemma slow_delta_bounds (c : ℝ) (h1 : 1 ≤ c) (h2 : c ≤ 2001) :
    1e-12 < transSum (oddsRatioProb c) slowMarket - 1 ∧
    transSum (oddsRatioProb c) slowMarket - 1 < 1 := by
  rw [slow_transSum]
  have hx0 : (0:ℝ) < 1 + c * 1e-6 := by nlinarith
  have hxu : 1 + c * 1e-6 ≤ 1.002001 := by nlinarith
  have hx1 : 1 < 1 + c * 1e-6 := by nlinarith
  constructor
  · rw [lt_sub_iff_add_lt, lt_div_iff hx0]
    nlinarith
  · rw [sub_lt_iff_lt_add, div_lt_iff hx0]
    nlinarith

/-- The budget-exhaustion invariant: starting from any parameter in `[1, 2002
- fuel]`, the loop consumes all its fuel (each check finds the residual above
tolerance), the final parameter stays in `[1, c + fuel]`, and the iteration
counter advances by exactly `fuel`. -/
lemma slow_solveLoop (fuel : ℕ) :
    ∀ (c : ℝ) (i : ℕ), 1 ≤ c → c + (fuel : ℝ) ≤ 2002 →
      1 ≤ (solveLoop oddsRatioProb slowMarket fuel (c, i)).1 ∧
      (solveLoop oddsRatioProb slowMarket fuel (c, i)).1 ≤ c + (fuel : ℝ) ∧
      (solveLoop oddsRatioProb slowMarket fuel (c, i)).2 = i + fuel := by
  induction fuel with
  | zero =>
    intro c i h1 h2
    exact ⟨h1, by simp [solveLoop], by simp [solveLoop]⟩
  | succ n ih =>
    intro c i h1 h2
    have hn0 : (0:ℝ) ≤ (n : ℝ) := Nat.cast_nonneg n
    have hc2001 : c ≤ 2001 := by
      push_cast at h2
      linarith
    obtain ⟨hlb, hub⟩ := slow_delta_bounds c h1 hc2001
    have hcond : 1e-12 < |transSum (oddsRatioProb c) slowMarket - 1| := by
      rw [abs_of_pos (by linarith : (0:ℝ) <
        transSum (oddsRatioProb c) slowMarket - 1)]
      exact hlb
    rw [solveLoop, if_pos hcond]
    have h1' : 1 ≤ c + (transSum (oddsRatioProb c) slowMarket - 1) := by linarith
    have h2' : (c + (transSum (oddsRatioProb c) slowMarket - 1)) + (n : ℝ) ≤ 2002 := by
      push_cast at h2
      linarith
    obtain ⟨ra, rb, rc⟩ := ih (c + (transSum (oddsRatioProb c) slowMarket - 1)) (i + 1) h1' h2'
    refine ⟨ra, ?_, ?_⟩
    · push_cast
      linarith
    · rw [rc]
      omega

lemma slow_final :
    1 ≤ (solveLoop oddsRatioProb slowMarket 1000 (1, 0)).1 ∧
    (solveLoop oddsRatioProb slowMarket 1000 (1, 0)).1 ≤ 1001 ∧
    (solveLoop oddsRatioProb slowMarket 1000 (1, 0)).2 = 1000 := by
  obtain ⟨a, b, c⟩ := slow_solveLoop 1000 1 0 (le_refl 1) (by norm_num)
  refine ⟨a, ?_, by simpa using c⟩
  calc (solveLoop oddsRatioProb slowMarket 1000 (1, 0)).1
      ≤ 1 + ((1000 : ℕ) : ℝ) := b
    _ = 1001 := by norm_num

/-- After the full 1000 iterations the residual on the slow market is still
larger than 1/2, hence above both the 1e-12 tolerance and the 1e-9 output
quality bound. -/
lemma slow_residual :
    1e-12 < |transSum (oddsRatioProb
      (solveLoop oddsRatioProb slowMarket 1000 (1, 0)).1) slowMarket - 1| ∧
    1e-9 < |transSum (oddsRatioProb
      (solveLoop oddsRatioProb slowMarket 1000 (1, 0)).1) slowMarket - 1| := by
  obtain ⟨h1, h2, -⟩ := slow_final
  rw [slow_transSum]
  have hx0 : (0:ℝ) < 1 + (solveLoop oddsRatioProb slowMarket 1000 (1, 0)).1 * 1e-6 := by
    nlinarith
  have hxu : 1 + (solveLoop oddsRatioProb slowMarket 1000 (1, 0)).1 * 1e-6 ≤
      1.001001 := by nlinarith
  have hlow : (1:ℝ)/2 < 2 / (1 + (solveLoop oddsRatioProb slowMarket 1000 (1, 0)).1
      * 1e-6) - 1 := by
    rw [lt_sub_iff_add_lt, lt_div_iff hx0]
    nlinarith
  rw [abs_of_pos (by linarith)]
  constructor <;> linarith

/-- Counterexample to claim C1 (as stated): the two-outcome market of
`slowMarket` is non-empty with every decimal odds above 1, yet the implied
probabilities of the `OddsRatioOdds` output sum to more than `1 + 1e-9` (the
solver exhausts its budget far from the fixed point, leaving a residual above
1/2). -/
theorem normalizers_spec_counterexample :
    slowMarket ≠ [] ∧ (∀ o ∈ slowMarket, 1 < o.decimalOdds) ∧
    1e-9 < |((OddsRatioOdds slowMarket).map fun o => o.ImpliedProb.decimal).sum - 1| := by
  refine ⟨by simp [slowMarket], ?_, ?_⟩
  · intro o ho
    simp only [slowMarket, List.mem_cons, List.not_mem_nil, or_false] at ho
    rcases ho with rfl | rfl <;>
      (rw [newOddsFromDecimal_decimalOdds]; norm_num)
  · have hsum : ((OddsRatioOdds slowMarket).map fun o => o.ImpliedProb.decimal).sum =
        transSum (oddsRatioProb
          (solveLoop oddsRatioProb slowMarket 1000 (1, 0)).1) slowMarket := by
      rw [OddsRatioOdds, implied_sum_transOdds]
    rw [hsum]
    exact slow_residual.2

/-! ## Claim C3: budget exhaustion is not reported -/

/-- Claim C3 amended (corrected): when the odds-ratio solver exhausts its
1000-iteration budget with the residual still above the 1e-12 tolerance, the
function nevertheless returns the plain best-effort odds sequence
`1/f(o, c_final)` of the input's length; its return carries no failure
indication of any kind (the codomain is a bare odds list). -/
theorem convergence_failure_amended (odds : List Odds)
    (hiter : (solveLoop oddsRatioProb odds 1000 (1, 0)).2 = 1000)
    (hres : 1e-12 < |transSum (oddsRatioProb
      (solveLoop oddsRatioProb odds 1000 (1, 0)).1) odds - 1|) :
    OddsRatioOdds odds = transOdds (oddsRatioProb
      (solveLoop oddsRatioProb odds 1000 (1, 0)).1) odds ∧
    (OddsRatioOdds odds).length = odds.length :=
  ⟨rfl, by simp [OddsRatioOdds, transOdds]⟩

/-- Witness for claim C3 (amended): on `slowMarket` the budget is exhausted
and the unflagged best-effort sequence is returned. -/
theorem convergence_failure_amended_witness :
    (solveLoop oddsRatioProb slowMarket 1000 (1, 0)).2 = 1000 ∧
    1e-12 < |transSum (oddsRatioProb
      (solveLoop oddsRatioProb slowMarket 1000 (1, 0)).1) slowMarket - 1| ∧
    OddsRatioOdds slowMarket = transOdds (oddsRatioProb
      (solveLoop oddsRatioProb slowMarket 1000 (1, 0)).1) slowMarket :=
  ⟨slow_final.2.2, slow_residual.1,
    (convergence_failure_amended slowMarket slow_final.2.2 slow_residual.1).1⟩

/-- Counterexample to claim C3 (as stated): on the in-domain market
`slowMarket` the odds-ratio solver performs all 1000 iterations and stops with
residual still above the 1e-12 tolerance, yet `OddsRatioOdds` returns the
unflagged best-effort two-element odds sequence rather than any distinct
"did not converge" outcome. -/
theorem convergence_failure_counterexample :
    (solveLoop oddsRatioProb slowMarket 1000 (1, 0)).2 = 1000 ∧
    1e-12 < |transSum (oddsRatioProb
      (solveLoop oddsRatioProb slowMarket 1000 (1, 0)).1) slowMarket - 1| ∧
    OddsRatioOdds slowMarket = transOdds (oddsRatioProb
      (solveLoop oddsRatioProb slowMarket 1000 (1, 0)).1) slowMarket ∧
    (OddsRatioOdds slowMarket).length = slowMarket.length :=
  ⟨slow_final.2.2, slow_residual.1, rfl, by simp [OddsRatioOdds, transOdds]⟩

/-! ## Claim C4: the Kelly fraction formula and its non-negativity -/

/-- Claim C4 (confirmed): for every odds, probability and multiplier,
`KellyFraction(prob, mult)` equals `max(0, mult * (b*p - q)/b)` with
`b = decimalOdds - 1`, `p = prob.decimal` and `q = 1 - p`; in particular the
returned value is never negative. -/
theorem kellyFraction_spec (odds : Odds) (prob : Probability) (mult : ℝ) :
    odds.KellyFraction prob mult =
      max 0 (mult * (((odds.decimalOdds - 1) * prob.decimal - (1 - prob.decimal)) /
        (odds.decimalOdds - 1))) ∧
    0 ≤ odds.KellyFraction prob mult :=
  ⟨max_comm _ _, le_max_right _ _⟩

/-! ## Claim C5: the degenerate inputs are not surfaced as failures -/

/-- Counterexample to claim C5 (as stated): `KellyFraction` at the degenerate
input `decimalOdds = 1` (where `b = 0` reaches the denominator) returns the
ordinary value 0 — the very same value a legitimate negative-edge input such
as decimal odds 3 with probability 1/4 produces. The degenerate case is thus
not surfaced as an explicit, distinct failure value: the Go code clamps the
`-Inf` intermediate with `math.Max(_, 0)` and returns a plain float. -/
theorem degenerate_inputs_counterexample :
    (NewOddsFromDecimal 1).KellyFraction (NewProbabilityFromDecimal (1 / 2)) 1 = 0 ∧
    (NewOddsFromDecimal 3).KellyFraction (NewProbabilityFromDecimal (1 / 4)) 1 = 0 := by
  constructor
  · unfold Odds.KellyFraction
    rw [newOddsFromDecimal_decimalOdds]
    norm_num
  · unfold Odds.KellyFraction
    rw [newOddsFromDecimal_decimalOdds]
    have harg : (1 : ℝ) * (((3 - 1) * (NewProbabilityFromDecimal (1 / 4)).decimal -
        (1 - (NewProbabilityFromDecimal (1 / 4)).decimal)) / (3 - 1)) = -(1 / 8) := by
      show (1 : ℝ) * (((3 - 1) * (1 / 4) - (1 - 1 / 4)) / (3 - 1)) = -(1 / 8)
      norm_num
    rw [harg, max_eq_right (by norm_num : -(1 / 8 : ℝ) ≤ 0)]

/-- Claim C5 amended (corrected): the degenerate-input conditions are not
detected and no distinct failure value/kind exists. `KellyFraction` at
`decimalOdds = 1` silently returns the clamped ordinary value 0 (for a
positive multiplier and probability below 1, matching the Go float
behaviour), and `Average`/`AverageWithout` apply their quotient formulas
unconditionally — there is no validation branch for `count = 0` or
`count - removeCount ≤ 0`, the degenerate quotient is simply wrapped in an
ordinary `Odds` value. -/
theorem degenerate_inputs_amended (prob : Probability) (mult : ℝ)
    (hp : prob.decimal < 1) (hm : 0 < mult) :
    (NewOddsFromDecimal 1).KellyFraction prob mult = 0 ∧
    (∀ ao : AverageOdds, ao.Average = NewOddsFromDecimal (ao.sum / (ao.count : ℝ))) ∧
    (∀ (ao : AverageOdds) (o : Odds) (n : ℤ), ao.AverageWithout o n =
      NewOddsFromDecimal ((ao.sum - o.decimalOdds * (n : ℝ)) /
        (((ao.count - n : ℤ) : ℝ)))) := by
  refine ⟨?_, fun ao => rfl, fun ao o n => rfl⟩
  unfold Odds.KellyFraction
  rw [newOddsFromDecimal_decimalOdds]
  norm_num

/-- Witness for claim C5 (amended): probability 1/4 and multiplier 2 satisfy
the hypotheses and the degenerate Kelly call returns 0. -/
theorem degenerate_inputs_amended_witness :
    (NewProbabilityFromDecimal (1 / 4)).decimal < 1 ∧ (0 : ℝ) < 2 ∧
    (NewOddsFromDecimal 1).KellyFraction (NewProbabilityFromDecimal (1 / 4)) 2 = 0 := by
  have hp : (NewProbabilityFromDecimal (1 / 4)).decimal < 1 := by
    show (1 / 4 : ℝ) < 1
    norm_num
  exact ⟨hp, by norm_num,
    (degenerate_inputs_amended (NewProbabilityFromDecimal (1 / 4)) 2 hp (by norm_num)).1⟩

/-! ## Claim C6: the primary value is stored and returned unchanged -/

/-- Claim C6 (confirmed): for every american value `a`,
`NewOddsFromAmerican(a).American() = a` exactly, and for every decimal value
`d`, `NewOddsFromDecimal(d).Decimal() = d` exactly: the primary value supplied
at construction is stored bit-for-bit and returned unchanged. -/
theorem odds_roundtrip :
    (∀ a : ℝ, (NewOddsFromAmerican a).American = a) ∧
    (∀ d : ℝ, (NewOddsFromDecimal d).Decimal = d) := by
  constructor
  · intro a; simp [Odds.American]
  · intro d; simp [Odds.Decimal]

/-! ## Claim C7: the market-width case analysis -/

/-- Claim C7 (confirmed): `MarketWidth` returns `|a| + |b| - 200` when both
american odds are negative, `-(a + b - 200)` when both are positive, and
`|a + b|` in the mixed-sign case; the three literal scenarios from the spec
evaluate to `18`, `24` and `-87`. -/
theorem marketWidth_spec :
    (∀ odds1 odds2 : Odds, odds1.americanOdds < 0 → odds2.americanOdds < 0 →
      MarketWidth odds1 odds2 = |odds1.americanOdds| + |odds2.americanOdds| - 200) ∧
    (∀ odds1 odds2 : Odds, 0 < odds1.americanOdds → 0 < odds2.americanOdds →
      MarketWidth odds1 odds2 = -(odds1.americanOdds + odds2.americanOdds - 200)) ∧
    (∀ odds1 odds2 : Odds, odds1.americanOdds < 0 → 0 < odds2.americanOdds →
      MarketWidth odds1 odds2 = |odds1.americanOdds + odds2.americanOdds|) ∧
    (∀ odds1 odds2 : Odds, 0 < odds1.americanOdds → odds2.americanOdds < 0 →
      MarketWidth odds1 odds2 = |odds1.americanOdds + odds2.americanOdds|) ∧
    MarketWidth (NewOddsFromAmerican (-141)) (NewOddsFromAmerican 123) = 18 ∧
    MarketWidth (NewOddsFromAmerican (-110)) (NewOddsFromAmerican (-114)) = 24 ∧
    MarketWidth (NewOddsFromAmerican 150) (NewOddsFromAmerican 137) = -87 := by
  refine ⟨?_, ?_, ?_, ?_, ?_, ?_, ?_⟩
  · intro o1 o2 h1 h2
    rw [MarketWidth, if_pos ⟨h1, h2⟩]
  · intro o1 o2 h1 h2
    rw [MarketWidth, if_neg (fun h => lt_asymm h1 h.1), if_pos ⟨h1, h2⟩]
  · intro o1 o2 h1 h2
    rw [MarketWidth, if_neg (fun h => lt_asymm h2 h.2),
      if_neg (fun h => lt_asymm h1 h.1)]
  · intro o1 o2 h1 h2
    rw [MarketWidth, if_neg (fun h => lt_asymm h1 h.1),
      if_neg (fun h => lt_asymm h2 h.2)]
  · rw [MarketWidth]
    rw [if_neg (by simp), if_neg (by simp)]
    simp only [newOddsFromAmerican_americanOdds]
    rw [show (-141 : ℝ) + 123 = -18 by norm_num, abs_of_neg (by norm_num)]
    norm_num
  · rw [MarketWidth, if_pos (by simp)]
    simp only [newOddsFromAmerican_americanOdds]
    rw [abs_of_neg (by norm_num : (-110:ℝ) < 0), abs_of_neg (by norm_num : (-114:ℝ) < 0)]
    norm_num
  · rw [MarketWidth, if_neg (by simp), if_pos (by simp)]
    simp only [newOddsFromAmerican_americanOdds]
    norm_num

/-- Witness for claim C7: the both-negative branch applied at the concrete
market `(-150, -120)`. -/
theorem marketWidth_spec_witness :
    (NewOddsFromAmerican (-150)).americanOdds < 0 ∧
    (NewOddsFromAmerican (-120)).americanOdds < 0 ∧
    MarketWidth (NewOddsFromAmerican (-150)) (NewOddsFromAmerican (-120)) =
      |(NewOddsFromAmerican (-150)).americanOdds| +
        |(NewOddsFromAmerican (-120)).americanOdds| - 200 := by
  have h1 : (NewOddsFromAmerican (-150)).americanOdds < 0 := by simp
  have h2 : (NewOddsFromAmerican (-120)).americanOdds < 0 := by simp
  exact ⟨h1, h2, marketWidth_spec.1 _ _ h1 h2⟩

/-! ## Claim C9: AverageWithout -/

/-- Folding a list of odds with `Accumulate` adds their summed decimal odds to
`sum` and their number to `count`. -/
lemma accumulate_spec (l : List Odds) : ∀ ao : AverageOdds,
    ao.Accumulate l =
      ⟨ao.sum + (l.map fun o => o.decimalOdds).sum, ao.count + l.length⟩ := by
  induction l with
  | nil => intro ao; simp [AverageOdds.Accumulate]
  | cons x xs ih =>
    intro ao
    have hstep : AverageOdds.Accumulate ao (x :: xs) =
        AverageOdds.Accumulate ⟨ao.sum + x.decimalOdds, ao.count + 1⟩ xs := rfl
    rw [hstep, ih]
    simp only [List.map_cons, List.sum_cons, List.length_cons, AverageOdds.mk.injEq]
    refine ⟨by ring, by push_cast; ring⟩

/-- Claim C9 (confirmed): `AverageWithout(o, n)` returns
`NewOddsFromDecimal((sum - o.decimalOdds*n)/(count - n))` and leaves the
accumulator unchanged (the state-transformer view of the pointer-receiver
method returns the receiver as post-state); and on an accumulator populated
with exactly `k` copies of `o` plus other values it reproduces the exact
arithmetic mean of the remaining values. -/
theorem averageWithout_spec :
    (∀ (ao : AverageOdds) (o : Odds) (n : ℤ),
      ao.AverageWithoutSt o n =
        (NewOddsFromDecimal ((ao.sum - o.decimalOdds * (n : ℝ)) /
          (((ao.count - n : ℤ) : ℝ))), ao)) ∧
    (∀ (o : Odds) (k : ℕ) (ys : List Odds), ys ≠ [] →
      (NewAverageOdds.Accumulate (List.replicate k o ++ ys)).AverageWithout o (k : ℤ) =
        NewOddsFromDecimal ((ys.map fun y => y.decimalOdds).sum / (ys.length : ℝ))) := by
  constructor
  · intro ao o n; rfl
  · intro o k ys hys
    rw [accumulate_spec]
    unfold AverageOdds.AverageWithout NewAverageOdds
    congr 1
    have hsum : ((List.replicate k o ++ ys).map fun y => y.decimalOdds).sum =
        (k : ℝ) * o.decimalOdds + (ys.map fun y => y.decimalOdds).sum := by
      rw [List.map_append, List.sum_append, List.map_replicate, List.sum_replicate,
        nsmul_eq_mul]
    rw [hsum]
    have hlen : (List.replicate k o ++ ys).length = k + ys.length := by
      rw [List.length_append, List.length_replicate]
    rw [hlen]
    push_cast
    ring_nf

/-- Witness for claim C9: the accumulator fed decimal odds {7, 3, 5} with one
copy of 7 removed reproduces the mean 4 of {3, 5}. -/
theorem averageWithout_spec_witness :
    ([NewOddsFromDecimal 3, NewOddsFromDecimal 5] : List Odds) ≠ [] ∧
    (NewAverageOdds.Accumulate (List.replicate 1 (NewOddsFromDecimal 7) ++
        [NewOddsFromDecimal 3, NewOddsFromDecimal 5])).AverageWithout
      (NewOddsFromDecimal 7) 1 = NewOddsFromDecimal 4 := by
  refine ⟨by simp, ?_⟩
  have h := averageWithout_spec.2 (NewOddsFromDecimal 7) 1
    [NewOddsFromDecimal 3, NewOddsFromDecimal 5] (by simp)
  rw [show ((1:ℕ) : ℤ) = (1 : ℤ) from rfl] at h
  rw [h]
  norm_num

/-! ## Claim C10: american odds 0 produce decimal odds of negative infinity -/

noncomputable section

/-- IEEE-754 style division on extended reals, modelling Go float64 division
where it can hit a zero divisor: dividing a positive number by (positive) zero
yields `+Inf`, a negative number yields `-Inf`; away from zero it is ordinary
extended-real division. -/
def ieeeDiv (x y : EReal) : EReal :=
  if y = 0 then (if 0 < x then ⊤ else if x < 0 then ⊥ else 0) else x / y

/-- The Go struct `Odds` on the extended-real (infinity-aware) model of
float64, used for the claim about the input `americanOdds = 0`. -/
structure OddsE where
  decimalOdds : EReal
  americanOdds : EReal

/-- Go `NewOddsFromAmerican` on the extended-real model: the same branch
structure and formulas as the source, with the division that can receive a
zero divisor modelled by `ieeeDiv`. -/
def NewOddsFromAmericanE (americanOdds : EReal) : OddsE :=
  if americanOdds > 0 then
    ⟨ieeeDiv americanOdds 100 + 1, americanOdds⟩
  else
    ⟨1 - ieeeDiv 100 americanOdds, americanOdds⟩

/-- Go method `Decimal` on the extended-real model. -/
def OddsE.Decimal (odds : OddsE) : EReal := odds.decimalOdds

end

/-- Claim C10 (confirmed): for the input `americanOdds = 0` the constructor
takes the non-positive branch (`0 > 0` is false), evaluates
`1.0 - 100.0/0.0 = 1 - (+Inf) = -Inf`, and returns an ordinary `Odds` whose
`decimalOdds` is negative infinity and whose stored american odds are 0 —
no error is signalled (the function is total into the odds type), and the
accessor `Decimal()` hands the non-finite value on to callers. -/
theorem zero_american_odds :
    NewOddsFromAmericanE 0 = ⟨⊥, 0⟩ ∧
    (NewOddsFromAmericanE 0).Decimal = ⊥ := by
  have h : NewOddsFromAmericanE 0 = ⟨⊥, 0⟩ := by
    unfold NewOddsFromAmericanE
    rw [if_neg (lt_irrefl (0 : EReal))]
    have hdiv : ieeeDiv 100 0 = ⊤ := by
      unfold ieeeDiv
      rw [if_pos rfl, if_pos (by norm_num : (0 : EReal) < 100)]
    rw [hdiv, EReal.sub_top]
  exact ⟨h, by rw [OddsE.Decimal, h]⟩

/-! ## Claim C8: the probability fields are exactly in sync -/

/-- Claim C8 (confirmed): for every Probability produced by either
constructor, `percent = decimal * 100` holds exactly. -/
theorem probability_sync :
    (∀ percent : ℝ, (NewProbabilityFromPercent percent).percent =
      (NewProbabilityFromPercent percent).decimal * 100) ∧
    (∀ decimal : ℝ, (NewProbabilityFromDecimal decimal).percent =
      (NewProbabilityFromDecimal decimal).decimal * 100) := by
  constructor
  · intro p
    show p = p / 100 * 100
    rw [div_mul_cancel₀ _ (by norm_num : (100:ℝ) ≠ 0)]
  · intro d; rfl

end Wagering
